import Mathlib

/-!
Verification of the skill-journal data-access layer (src/initialScript.py).

The SQLite database is embedded shallowly: each table is a list of row
structures, AUTOINCREMENT columns are modelled by explicit next-id counters,
and each data-access function is translated into a pure Lean function from
the database state to a `Bool × DB` (the Python functions return a success
flag and mutate the store).

Modelling conventions, fixed once here:
* `Timestamp` models a Python `datetime`: `day` is the day number counted
  from an (arbitrary) epoch Monday, so `date.weekday()` is `day % 7` with
  Monday = 0, and `tick` is the time of day.  SQLite stores datetimes as
  `YYYY-MM-DD HH:MM:SS` strings which compare lexicographically, so the SQL
  comparison `timestamp >= start_date` (a bare date, i.e. midnight) holds
  exactly when `start ≤ day`.
* `datetime.now()` is passed to each operation as an explicit `now`
  argument.
* GUI dialogs (`messagebox.*`) are presentation-layer I/O and carry no data;
  the confirmation prompt inside `delete_form_field` is modelled as
  confirmed (the spec assigns confirmation prompts to the excluded
  presentation layer).
* SQLite enforces foreign keys only on connections that execute
  `PRAGMA foreign_keys = ON`.  Only `initialize_db` does so; every helper
  opens a fresh connection without the pragma, so no foreign-key action
  (in particular `ON DELETE CASCADE`) fires in any of the operations below.
  The model therefore performs no cascading.
* SQL floating point (`AVG`, `CAST(... AS REAL)`) is modelled over `Rat`,
  the counterpart of modelling machine integers over `Nat`/`Int`.
-/

structure Timestamp where
  day : Int
  tick : Nat
deriving DecidableEq

/-- Row of `Skills(skill_id, name, description, plan)`. -/
structure Skill where
  skill_id : Nat
  name : String
  description : String
  plan : String
deriving DecidableEq

/-- Row of `FormFields(field_id, skill_id, field_name, field_type,
deleted_timestamp)`.  The table also declares
`CHECK(field_type IN ('text','number','rating1-5'))` and
`UNIQUE(skill_id, field_name)`; both constraints are enforced inside
`add_form_field` below, the only statement that inserts into this table. -/
structure FormField where
  field_id : Nat
  skill_id : Nat
  field_name : String
  field_type : String
  deleted_timestamp : Option Timestamp
deriving DecidableEq

/-- Row of `Reflections(reflection_id, skill_id, timestamp)`. -/
structure Reflection where
  reflection_id : Nat
  skill_id : Nat
  timestamp : Timestamp
deriving DecidableEq

/-- Row of `ReflectionEntries(entry_id, reflection_id, field_id, value)`. -/
structure ReflectionEntry where
  entry_id : Nat
  reflection_id : Nat
  field_id : Nat
  value : String
deriving DecidableEq

/-- Row of `GenericReflections(generic_reflection_id, timestamp, content)`. -/
structure GenericReflection where
  generic_reflection_id : Nat
  timestamp : Timestamp
  content : String
deriving DecidableEq

/-- The database: one list per table plus the AUTOINCREMENT counters. -/
structure DB where
  skills : List Skill
  fields : List FormField
  reflections : List Reflection
  entries : List ReflectionEntry
  generics : List GenericReflection
  nextFieldId : Nat
  nextReflectionId : Nat
  nextEntryId : Nat
  nextGenericId : Nat
deriving DecidableEq

/-- `SELECT COUNT(*) FROM FormFields WHERE skill_id = ? AND
deleted_timestamp IS NULL` — the active-field count used by
`add_form_field`. -/
def activeFieldCount (db : DB) (skill_id : Nat) : Nat :=
  (db.fields.filter (fun f => f.skill_id == skill_id && f.deleted_timestamp.isNone)).length

/-- `add_form_field(skill_id, field_name, field_type)` (lines 199-220).
Checks the 5-active-field cap, then the active duplicate name, then runs the
INSERT.  The INSERT itself raises `IntegrityError` — caught by the generic
`except`, which returns `False` — when the table-level
`UNIQUE(skill_id, field_name)` constraint (which spans soft-deleted rows as
well) or the `CHECK` on `field_type` is violated. -/
def add_form_field (db : DB) (skill_id : Nat) (field_name : String)
    (field_type : String) : Bool × DB :=
  if 5 ≤ activeFieldCount db skill_id then (false, db)
  else if db.fields.any (fun f =>
      f.skill_id == skill_id && f.field_name == field_name && f.deleted_timestamp.isNone) then
    (false, db)
  else if db.fields.any (fun f => f.skill_id == skill_id && f.field_name == field_name) then
    (false, db)
  else if !(field_type == "text" || field_type == "number" || field_type == "rating1-5") then
    (false, db)
  else
    (true, { db with
      fields := db.fields ++ [⟨db.nextFieldId, skill_id, field_name, field_type, none⟩],
      nextFieldId := db.nextFieldId + 1 })

/-- Stable insertion step for `sortWith`. -/
def insertSorted (le : α → α → Bool) (x : α) : List α → List α
  | [] => [x]
  | y :: ys => if le x y then x :: y :: ys else y :: insertSorted le x ys

/-- Stable insertion sort; models SQL `ORDER BY` and Python's stable
`list.sort`. -/
def sortWith (le : α → α → Bool) : List α → List α
  | [] => []
  | x :: xs => insertSorted le x (sortWith le xs)

/-- `get_form_fields(skill_id, include_deleted)` (lines 222-239):
`SELECT ... FROM FormFields WHERE skill_id = ? [AND deleted_timestamp IS
NULL] ORDER BY field_id`. -/
def get_form_fields (db : DB) (skill_id : Nat) (include_deleted : Bool) : List FormField :=
  sortWith (fun a b => a.field_id ≤ b.field_id)
    (db.fields.filter (fun f =>
      f.skill_id == skill_id && (include_deleted || f.deleted_timestamp.isNone)))

/-- `delete_form_field(field_id)` (lines 241-256): the soft delete
`UPDATE FormFields SET deleted_timestamp = ? WHERE field_id = ?` with
`now = datetime.now()`.  The `askyesno` confirmation dialog is
presentation-layer I/O, modelled as answered yes. -/
def delete_form_field (db : DB) (field_id : Nat) (now : Timestamp) : Bool × DB :=
  (true, { db with
    fields := db.fields.map (fun f =>
      if f.field_id == field_id then { f with deleted_timestamp := some now } else f) })

/-- The `ReflectionEntries` rows created by `executemany` inside
`save_reflection`: consecutive AUTOINCREMENT entry ids starting at `e0`,
all belonging to reflection `rid`. -/
def newEntriesFrom : Nat → Nat → List (Nat × String) → List ReflectionEntry
  | _, _, [] => []
  | e0, rid, (fid, v) :: rest => ⟨e0, rid, fid, v⟩ :: newEntriesFrom (e0 + 1) rid rest

/-- `save_reflection(skill_id, entries)` (lines 258-275).  The connection
runs one implicit transaction: INSERT into `Reflections` (statement 0),
one INSERT per entry (statements `1..N`), then `conn.commit()` (statement
`N+1`).  Exceptions are modelled by the oracle `failAt`: `some k` with `k`
among the statement indices means statement `k` raises, the `except` branch
runs `conn.rollback()`, and the function returns `False` with the store
unchanged.  Otherwise everything is committed.  `entries.items()` of the
Python dict is modelled as an association list.  No value validation occurs
anywhere in this function, and foreign keys are not enforced on this
connection.  `reflectionSaved` is the store after the commit. -/
def reflectionSaved (db : DB) (skill_id : Nat) (entries : List (Nat × String))
    (now : Timestamp) : DB :=
  { db with
    reflections := db.reflections ++ [⟨db.nextReflectionId, skill_id, now⟩],
    entries := db.entries ++ newEntriesFrom db.nextEntryId db.nextReflectionId entries,
    nextReflectionId := db.nextReflectionId + 1,
    nextEntryId := db.nextEntryId + entries.length }

/-- `save_reflection(skill_id, entries)` itself: see `reflectionSaved`. -/
def save_reflection (db : DB) (skill_id : Nat) (entries : List (Nat × String))
    (now : Timestamp) (failAt : Option Nat) : Bool × DB :=
  match failAt with
  | some k =>
    if k < entries.length + 2 then (false, db)
    else (true, reflectionSaved db skill_id entries now)
  | none => (true, reflectionSaved db skill_id entries now)

/-- `save_generic_reflection(content)` (lines 277-290): a single
unconditional `INSERT INTO GenericReflections (timestamp, content)`.  The
function performs no emptiness or whitespace check on `content` (the GUI
caller `submit_generic` strips and checks before calling). -/
def save_generic_reflection (db : DB) (content : String) (now : Timestamp) : Bool × DB :=
  (true, { db with
    generics := db.generics ++ [⟨db.nextGenericId, now, content⟩],
    nextGenericId := db.nextGenericId + 1 })

/-- `update_skill_reflection_entry(entry_id, value)` (lines 371-386):
`UPDATE ReflectionEntries SET value = ? WHERE entry_id = ?` — no
re-validation of the value against the field type. -/
def update_skill_reflection_entry (db : DB) (entry_id : Nat) (value : String) : Bool × DB :=
  (true, { db with
    entries := db.entries.map (fun e =>
      if e.entry_id == entry_id then { e with value := value } else e) })

/-- `delete_skill_reflection(reflection_id)` (lines 405-422): only
`DELETE FROM Reflections WHERE reflection_id = ?` is executed (the explicit
delete of the entries is commented out in the source).  This connection
never runs `PRAGMA foreign_keys = ON`, and SQLite leaves foreign-key
enforcement OFF by default per connection, so the declared
`ON DELETE CASCADE` on `ReflectionEntries.reflection_id` does not fire:
the entry rows are left in place. -/
def delete_skill_reflection (db : DB) (reflection_id : Nat) : Bool × DB :=
  (true, { db with
    reflections := db.reflections.filter (fun r => !(r.reflection_id == reflection_id)) })

/-- Lexicographic (chronological) order on timestamps; matches both SQL
string comparison of stored datetimes and Python `datetime` comparison. -/
def tsLeB (a b : Timestamp) : Bool :=
  decide (a.day < b.day ∨ (a.day = b.day ∧ a.tick ≤ b.tick))

/-- One row of the entry query inside `get_past_reflections` (lines
322-328): `SELECT re.entry_id, re.field_id, ff.field_name, ff.field_type,
re.value FROM ReflectionEntries re JOIN FormFields ff ON re.field_id =
ff.field_id WHERE re.reflection_id = ? ORDER BY ff.field_id`. -/
structure EntryView where
  entry_id : Nat
  field_id : Nat
  field_name : String
  field_type : String
  value : String
deriving DecidableEq

/-- The entry list attached to one skill reflection by
`get_past_reflections`: the join above, as a nested loop over the entry
rows and the matching field rows, ordered by `ff.field_id`. -/
def entriesFor (db : DB) (reflection_id : Nat) : List EntryView :=
  sortWith (fun a b => a.field_id ≤ b.field_id)
    ((db.entries.filter (fun e => e.reflection_id == reflection_id)).flatMap (fun e =>
      (db.fields.filter (fun f => f.field_id == e.field_id)).map (fun f =>
        ⟨e.entry_id, e.field_id, f.field_name, f.field_type, e.value⟩)))

/-- One element of the list returned by `get_past_reflections`: the
`{'type': 'generic', ...}` and `{'type': 'skill', ...}` dicts. -/
inductive ReflectionItem where
  | generic (id : Nat) (timestamp : Timestamp) (content : String)
  | skill (id : Nat) (skill_id : Nat) (timestamp : Timestamp) (skill_name : String)
      (entries : List EntryView)
deriving DecidableEq

def ReflectionItem.timestamp : ReflectionItem → Timestamp
  | .generic _ ts _ => ts
  | .skill _ _ ts _ _ => ts

/-- The generic part of `get_past_reflections` (lines 302-305), fetched
only when `skill_id is None`: `SELECT ... FROM GenericReflections ORDER BY
timestamp DESC LIMIT ?`. -/
def genericItems (db : DB) (lim : Nat) : List ReflectionItem :=
  ((sortWith (fun a b => tsLeB b.timestamp a.timestamp) db.generics).take lim).map
    (fun g => .generic g.generic_reflection_id g.timestamp g.content)

/-- The joined rows of `SELECT r..., s.name FROM Reflections r JOIN Skills
s ON r.skill_id = s.skill_id [WHERE r.skill_id = ?]` (lines 308-316),
before ordering. -/
def skillRows (db : DB) (skill_id : Option Nat) : List (Reflection × String) :=
  let joined := db.reflections.flatMap (fun r =>
    (db.skills.filter (fun s => s.skill_id == r.skill_id)).map (fun s => (r, s.name)))
  match skill_id with
  | none => joined
  | some sk => joined.filter (fun p => p.1.skill_id == sk)

/-- The skill part of `get_past_reflections` (lines 307-339): the join
above `ORDER BY r.timestamp DESC LIMIT ?`, each row enriched with its
entry list. -/
def skillItems (db : DB) (skill_id : Option Nat) (lim : Nat) : List ReflectionItem :=
  ((sortWith (fun a b => tsLeB b.1.timestamp a.1.timestamp) (skillRows db skill_id)).take
      lim).map
    (fun p => .skill p.1.reflection_id p.1.skill_id p.1.timestamp p.2
      (entriesFor db p.1.reflection_id))

/-- `get_past_reflections(skill_id, limit)` (lines 292-351), the spec's
`listReflections`.  When `skill_id is None` the generic and skill items are
concatenated, stably re-sorted newest first, and truncated to `limit`;
when a skill id is given only that skill's reflections are returned (no
generics, no extra merge sort). -/
def get_past_reflections (db : DB) (skill_id : Option Nat) (lim : Nat := 100) :
    List ReflectionItem :=
  match skill_id with
  | none =>
    (sortWith (fun a b => tsLeB b.timestamp a.timestamp)
      (genericItems db lim ++ skillItems db none lim)).take lim
  | some sk => skillItems db (some sk) lim

/-- `start_date = today - timedelta(days=today.weekday() + 4*7)` in
`get_dashboard_data` (line 429): the Monday four weeks before the most
recent Monday.  `today.weekday()` is `today % 7` (Monday epoch). -/
def dashStart (today : Int) : Int := today - today % 7 - 28

/-- `today - timedelta(days=today.weekday())`: the most recent Monday. -/
def mostRecentMonday (today : Int) : Int := today - today % 7

/-- `week_start_dates` (lines 430-435): `start_date + timedelta(weeks=i)`
for `i in range(5)`.  The chart label `"Wk %b %d"` is a rendering of the
start date; the week start date itself stands for the label. -/
def weekStartDates (today : Int) : List Int :=
  (List.range 5).map (fun i => dashStart today + 7 * (i : Int))

/-- The timestamps fetched by `get_dashboard_data` (lines 440-453):
`SELECT timestamp FROM Reflections WHERE timestamp >= start_date [AND
skill_id = ?]`, then — only when `skill_id` is `None` or `"All"`, both
modelled as `none` — the same over `GenericReflections`.  `timestamp >=
start_date` compares a datetime against midnight of `start_date`, i.e.
`start ≤ day`. -/
def dashboardTimestamps (db : DB) (skill_id : Option Nat) (today : Int) : List Timestamp :=
  let start := dashStart today
  (db.reflections.filter (fun r =>
      (match skill_id with | none => true | some sk => r.skill_id == sk)
        && decide (start ≤ r.timestamp.day))).map (·.timestamp)
    ++ (match skill_id with
      | none => (db.generics.filter (fun g => decide (start ≤ g.timestamp.day))).map
          (·.timestamp)
      | some _ => [])

/-- `weekly_counts[week_labels[i]] += 1`: add one to bucket `i`. -/
def bumpAt : List (Int × Nat) → Nat → List (Int × Nat)
  | [], _ => []
  | p :: ps, 0 => (p.1, p.2 + 1) :: ps
  | p :: ps, i + 1 => p :: bumpAt ps i

/-- The inner loop of lines 454-459: the first week index `i` with
`week_start_dates[i] <= ts_date < week_start_dates[i] + 7` (the Python
loop breaks at the first hit), if any. -/
def firstWeekIdx : List Int → Int → Option Nat
  | [], _ => none
  | ws :: rest, d =>
    if ws ≤ d ∧ d < ws + 7 then some 0 else (firstWeekIdx rest d).map (· + 1)

/-- `weekly_counts` of `get_dashboard_data` (lines 436, 454-459): the
ordered dict mapping each week start (label) to its count, built by
bucketing every fetched timestamp into its first matching week. -/
def weekly_counts (db : DB) (skill_id : Option Nat) (today : Int) : List (Int × Nat) :=
  let starts := weekStartDates today
  (dashboardTimestamps db skill_id today).foldl
    (fun acc ts =>
      match firstWeekIdx starts ts.day with
      | some i => bumpAt acc i
      | none => acc)
    (starts.map (fun ws => (ws, 0)))

/-- `overall_count` (lines 461-465): `COUNT(*)` over `Reflections` plus
`COUNT(*)` over `GenericReflections`, unfiltered. -/
def overall_count (db : DB) : Nat := db.reflections.length + db.generics.length

/-- Digit scanner for `castReal`: consumes leading decimal digits,
returning their value, how many there were, and the rest. -/
def takeDigits : List Char → Nat → Nat → Nat × Nat × List Char
  | [], acc, n => (acc, n, [])
  | c :: cs, acc, n =>
    if c.isDigit then takeDigits cs (acc * 10 + (c.toNat - 48)) (n + 1) else (acc, n, c :: cs)

/-- The pieces of the numeric prefix SQLite's `CAST(... AS REAL)` parses
from a text value: sign, integer digits, fraction digits (with their
count), decimal exponent. -/
structure NumScan where
  sign : Int
  ipart : Nat
  fpart : Nat
  fcnt : Nat
  expo : Int
deriving DecidableEq

/-- The scan behind `CAST(... AS REAL)`: optional leading spaces, optional
sign, digits with an optional fractional part, an optional exponent;
`none` when no mantissa digit is consumed.  Trailing non-numeric text is
ignored. -/
def scanReal (s : String) : Option NumScan :=
  let cs := s.toList.dropWhile (fun c => c == ' ')
  let signRest : Int × List Char :=
    match cs with
    | '-' :: rest => (-1, rest)
    | '+' :: rest => (1, rest)
    | _ => (1, cs)
  let (ipart, icnt, cs1) := takeDigits signRest.2 0 0
  let fracRest : Nat × Nat × List Char :=
    match cs1 with
    | '.' :: rest => takeDigits rest 0 0
    | _ => (0, 0, cs1)
  let (fpart, fcnt, cs2) := fracRest
  if icnt + fcnt == 0 then none
  else
    let expo : Int :=
      match cs2 with
      | 'e' :: rest | 'E' :: rest =>
        let esignRest : Int × List Char :=
          match rest with
          | '-' :: r => (-1, r)
          | '+' :: r => (1, r)
          | _ => (1, rest)
        let (edig, ecnt, _) := takeDigits esignRest.2 0 0
        if ecnt == 0 then 0 else esignRest.1 * edig
      | _ => 0
    some ⟨signRest.1, ipart, fpart, fcnt, expo⟩

/-- The rational value of a scanned numeric prefix. -/
def NumScan.toRat (n : NumScan) : Rat :=
  n.sign * ((n.ipart : Rat) + (n.fpart : Rat) / ((10 : Rat) ^ n.fcnt)) * (10 : Rat) ^ n.expo

/-- The real number `CAST(... AS REAL)` would produce for a text with a
numeric prefix; `none` when the text has none. -/
def parseReal (s : String) : Option Rat := (scanReal s).map NumScan.toRat

/-- `CAST(value AS REAL)`: the parsed numeric prefix, `0.0` when the text
has none. -/
def castReal (s : String) : Rat := (parseReal s).getD 0

/-- The value column of the aggregate query (line 468): `FROM
ReflectionEntries re JOIN FormFields ff ON re.field_id = ff.field_id JOIN
Reflections r ON re.reflection_id = r.reflection_id WHERE ff.field_name =
'Rating' AND ff.field_type = 'rating1-5' AND ff.deleted_timestamp IS NULL
[AND r.skill_id = ?]`, as a nested-loop join. -/
def ratingJoinValues (db : DB) (skill_id : Option Nat) : List String :=
  db.entries.flatMap (fun e =>
    (db.fields.filter (fun f =>
        f.field_id == e.field_id && f.field_name == "Rating"
          && f.field_type == "rating1-5" && f.deleted_timestamp.isNone)).flatMap (fun _f =>
      (db.reflections.filter (fun r =>
          r.reflection_id == e.reflection_id
            && (match skill_id with | none => true | some sk => r.skill_id == sk))).map
        (fun _r => e.value)))

/-- `AVG(CAST(re.value AS REAL))` over the join above: `NULL` (here
`none`) when no row matches, otherwise the mean.  `avg_rating_result[0] is
not None` is the code's emptiness test (lines 477-479). -/
def avg_rating (db : DB) (skill_id : Option Nat) : Option Rat :=
  let vs := ratingJoinValues db skill_id
  if vs.isEmpty then none
  else some ((vs.map castReal).sum / (vs.length : Rat))

/-- Rendering of `f"{avg_rating_result[0]:.2f}"` over `Rat`: the value
rounded to two decimals with a zero-padded two-digit fraction.  Python
formats the SQL double with round-half-even; exact representation and tie
behaviour of doubles is abstracted (`round` here is half-up — the two
agree away from exact half-cent ties). -/
def format2 (q : Rat) : String :=
  let scaled : Int := round (q * 100)
  let core := fun (m : Nat) =>
    toString (m / 100) ++ "." ++ (if m % 100 < 10 then "0" ++ toString (m % 100)
      else toString (m % 100))
  if scaled < 0 then "-" ++ core scaled.natAbs else core scaled.toNat

/-- The `skill_aggregates` value of `get_dashboard_data` (line 479): the
formatted average rating, absent when the aggregate is `NULL`. -/
def skill_aggregate (db : DB) (skill_id : Option Nat) : Option String :=
  (avg_rating db skill_id).map format2

/-- Spec-side predicate (§4.5): the field owning this `field_id` is named
exactly `"Rating"`, of type `rating1-5`, and currently active. -/
def isActiveRatingField (db : DB) (field_id : Nat) : Bool :=
  db.fields.any (fun f =>
    f.field_id == field_id && f.field_name == "Rating"
      && f.field_type == "rating1-5" && f.deleted_timestamp.isNone)

/-- Spec-side predicate (§4.5): the entry's reflection exists, and belongs
to the given skill when one is given. -/
def entryInScope (db : DB) (skill_id : Option Nat) (reflection_id : Nat) : Bool :=
  db.reflections.any (fun r =>
    r.reflection_id == reflection_id
      && (match skill_id with | none => true | some sk => r.skill_id == sk))

/-- Spec-side description of the aggregated values, following the spec's
words for `averageRating`: exactly the values of those entries whose
owning field is an active `"Rating"`/`rating1-5` field, scoped to the
given skill.  To be compared with the code-side `ratingJoinValues`. -/
def specRatingValues (db : DB) (skill_id : Option Nat) : List String :=
  (db.entries.filter (fun e =>
    isActiveRatingField db e.field_id && entryInScope db skill_id e.reflection_id)).map
    (·.value)

/-! Concrete database states used as witnesses and counterexamples. -/

def t0 : Timestamp := ⟨0, 0⟩

def emptyDB : DB := ⟨[], [], [], [], [], 1, 1, 1, 1⟩

/-- Skill 1 with five active fields and two soft-deleted ones. -/
def dbC1 : DB :=
  ⟨[⟨1, "Guitar Practice", "", ""⟩],
    [⟨1, 1, "A", "text", none⟩, ⟨2, 1, "B", "text", none⟩, ⟨3, 1, "C", "number", none⟩,
      ⟨4, 1, "D", "rating1-5", none⟩, ⟨5, 1, "E", "text", none⟩,
      ⟨6, 1, "F", "text", some t0⟩, ⟨7, 1, "G", "text", some t0⟩],
    [], [], [], 8, 1, 1, 1⟩

/-- Skill 1 whose only field, named `"Notes"`, is soft-deleted. -/
def dbC3 : DB :=
  ⟨[⟨1, "Guitar Practice", "", ""⟩], [⟨1, 1, "Notes", "text", some t0⟩],
    [], [], [], 2, 1, 1, 1⟩

/-- Skill 1 with one stored skill reflection carrying one entry. -/
def dbC4 : DB :=
  ⟨[⟨1, "Guitar Practice", "", ""⟩], [⟨1, 1, "Rating", "rating1-5", none⟩],
    [⟨1, 1, t0⟩], [⟨1, 1, 1, "4"⟩], [], 2, 2, 2, 1⟩

/-- Skill 1 with one active field of type `number` and nothing stored. -/
def dbC7 : DB :=
  ⟨[⟨1, "Guitar Practice", "", ""⟩], [⟨1, 1, "Minutes", "number", none⟩],
    [], [], [], 2, 1, 1, 1⟩

/-- C1.  For every skill that already has 5 (or more) active fields,
`add_form_field` fails and leaves the store unchanged — the count it
checks ignores soft-deleted fields, so their number is irrelevant. -/
theorem addField_limit (db : DB) (skill_id : Nat) (field_name field_type : String)
    (h : 5 ≤ activeFieldCount db skill_id) :
    add_form_field db skill_id field_name field_type = (false, db) := by
  unfold add_form_field
  rw [if_pos h]

/-- Witness for C1: a skill with 5 active and 2 soft-deleted fields. -/
theorem addField_limit_witness :
    5 ≤ activeFieldCount dbC1 1 ∧ add_form_field dbC1 1 "Extra" "text" = (false, dbC1) :=
  ⟨by decide, addField_limit dbC1 1 "Extra" "text" (by decide)⟩

/-- C3.  Failing input for the claim: skill 1 has 0 active fields and no
active field named `"Notes"`, yet `add_form_field 1 "Notes" "text"` fails
and inserts nothing, because the soft-deleted field named `"Notes"` still
occupies the table-level `UNIQUE(skill_id, field_name)` slot.  The code's
own in-function duplicate check (and its error message) is scoped to
active fields only, so the retained global constraint contradicts it. -/
theorem addField_softdeleted_name_collision :
    activeFieldCount dbC3 1 = 0 ∧
      dbC3.fields.any (fun f =>
        f.skill_id == 1 && f.field_name == "Notes" && f.deleted_timestamp.isNone) = false ∧
      add_form_field dbC3 1 "Notes" "text" = (false, dbC3) := by
  decide

/-- C4.  Failing input for the claim: deleting skill reflection 1 succeeds
and removes the `Reflections` row, but the `ReflectionEntries` row that
references it survives — the connection never enables SQLite foreign-key
enforcement, so the declared `ON DELETE CASCADE` does not run, although
the code's own comment and log line claim the entries are deleted. -/
theorem deleteReflection_leaves_entries :
    (delete_skill_reflection dbC4 1).1 = true ∧
      (delete_skill_reflection dbC4 1).2.reflections = [] ∧
      (delete_skill_reflection dbC4 1).2.entries = [⟨1, 1, 1, "4"⟩] := by
  decide

/-- The pairs `(field_id, value)` of the freshly inserted entry rows are
exactly the submitted pairs. -/
theorem newEntriesFrom_pairs (e0 rid : Nat) (es : List (Nat × String)) :
    (newEntriesFrom e0 rid es).map (fun e => (e.field_id, e.value)) = es := by
  induction es generalizing e0 with
  | nil => rfl
  | cons p rest ih => cases p; simp [newEntriesFrom, ih]

/-- C5.  `save_reflection` is atomic: whatever statement of the
transaction fails (oracle `failAt`), either the run succeeds and the new
store holds the one reflection row plus every submitted `(fieldId, value)`
entry, or the run fails and the store is exactly the old one. -/
theorem saveReflection_atomic (db : DB) (skill_id : Nat) (entries : List (Nat × String))
    (now : Timestamp) (failAt : Option Nat) :
    (∃ db', save_reflection db skill_id entries now failAt = (true, db') ∧
        db'.reflections = db.reflections ++ [⟨db.nextReflectionId, skill_id, now⟩] ∧
        db'.entries = db.entries ++ newEntriesFrom db.nextEntryId db.nextReflectionId entries ∧
        db'.entries.map (fun e => (e.field_id, e.value))
          = db.entries.map (fun e => (e.field_id, e.value)) ++ entries) ∨
      save_reflection db skill_id entries now failAt = (false, db) := by
  cases failAt with
  | none =>
    exact Or.inl ⟨reflectionSaved db skill_id entries now, rfl, rfl, rfl,
      by simp [reflectionSaved, newEntriesFrom_pairs]⟩
  | some k =>
    by_cases hk : k < entries.length + 2
    · exact Or.inr (by simp [save_reflection, hk])
    · refine Or.inl ⟨reflectionSaved db skill_id entries now,
        by simp [save_reflection, hk], rfl, rfl,
        by simp [reflectionSaved, newEntriesFrom_pairs]⟩

/-- Counterexample to C6 as stated: `save_generic_reflection` called with
the blank content `""` succeeds and stores a row, instead of failing with
`EmptyContent` and storing nothing. -/
theorem saveGeneric_blank_stored :
    (save_generic_reflection emptyDB "" t0).1 = true ∧
      (save_generic_reflection emptyDB "" t0).2.generics = [⟨1, t0, ""⟩] := by
  decide

/-- C6 (amended).  `save_generic_reflection` performs no blank check at
all: for every content string — blank after trimming or not — it succeeds
and appends the row; rejecting blank content is done by its GUI caller
before the call. -/
theorem saveGeneric_stores_any (db : DB) (content : String) (now : Timestamp) :
    (save_generic_reflection db content now).1 = true ∧
      (save_generic_reflection db content now).2.generics
        = db.generics ++ [⟨db.nextGenericId, now, content⟩] :=
  ⟨rfl, rfl⟩

/-- Counterexample to C7 as stated: field 1 is an active `number` field
and `"abc"` has no numeric prefix, yet `save_reflection` with entry
`(1, "abc")` succeeds and stores the value verbatim, instead of failing
with nothing stored. -/
theorem saveReflection_invalid_value_stored :
    scanReal "abc" = none ∧
      dbC7.fields = [⟨1, 1, "Minutes", "number", none⟩] ∧
      (save_reflection dbC7 1 [(1, "abc")] t0 none).1 = true ∧
      (save_reflection dbC7 1 [(1, "abc")] t0 none).2.entries = [⟨1, 1, 1, "abc"⟩] := by
  decide

/-- C7 (amended).  `save_reflection` itself re-validates nothing: absent a
storage failure it succeeds for every submitted entries mapping, whatever
the values, and stores every submitted `(fieldId, value)` pair verbatim;
type-dependent validation happens only in the GUI caller. -/
theorem saveReflection_no_validation (db : DB) (skill_id : Nat)
    (entries : List (Nat × String)) (now : Timestamp) :
    (save_reflection db skill_id entries now none).1 = true ∧
      (save_reflection db skill_id entries now none).2.entries.map
          (fun e => (e.field_id, e.value))
        = db.entries.map (fun e => (e.field_id, e.value)) ++ entries :=
  ⟨rfl, by simp [save_reflection, reflectionSaved, newEntriesFrom_pairs]⟩

theorem mem_insertSorted {le : α → α → Bool} {x a : α} {l : List α} :
    a ∈ insertSorted le x l ↔ a = x ∨ a ∈ l := by
  induction l with
  | nil => simp [insertSorted]
  | cons y ys ih =>
    simp only [insertSorted]
    by_cases h : le x y
    · simp [h]
    · simp [h, ih]
      tauto

/-- `sortWith` is a permutation as far as membership is concerned. -/
theorem mem_sortWith {le : α → α → Bool} {a : α} {l : List α} :
    a ∈ sortWith le l ↔ a ∈ l := by
  induction l with
  | nil => simp [sortWith]
  | cons x xs ih => simp [sortWith, mem_insertSorted, ih]

/-- Filtering and projecting a mapped list is unchanged when the map
preserves both the filter predicate and the projection. -/
theorem filter_map_invariant {α β} (u : α → α) (p : α → Bool) (v : α → β) (l : List α)
    (hp : ∀ a, p (u a) = p a) (hv : ∀ a, v (u a) = v a) :
    ((l.map u).filter p).map v = (l.filter p).map v := by
  induction l with
  | nil => rfl
  | cons a l ih =>
    simp only [List.map_cons, List.filter_cons, hp a]
    cases h : p a
    · simpa [h] using ih
    · simp [h, ih, hv a]

/-- Pointwise equal functions give equal `flatMap`s. -/
theorem flatMap_congrFun {α β} (l : List α) {f g : α → List β} (h : ∀ a, f a = g a) :
    l.flatMap f = l.flatMap g := by
  induction l with
  | nil => rfl
  | cons a l ih => simp only [List.flatMap_cons, h a, ih]

/-- Soft-deleting a field changes no output of the per-reflection entry
query: the join matches on `field_id` and projects only name, type and
value, none of which the `UPDATE` touches. -/
theorem entriesFor_softdelete (db : DB) (fid : Nat) (now : Timestamp) (rid : Nat) :
    entriesFor ((delete_form_field db fid now).2) rid = entriesFor db rid := by
  show sortWith (fun a b => a.field_id ≤ b.field_id)
      ((db.entries.filter (fun e => e.reflection_id == rid)).flatMap (fun e =>
        ((db.fields.map (fun f =>
            if f.field_id == fid then { f with deleted_timestamp := some now } else f)).filter
            (fun f => f.field_id == e.field_id)).map
          (fun f => (⟨e.entry_id, e.field_id, f.field_name, f.field_type, e.value⟩ : EntryView))))
    = entriesFor db rid
  unfold entriesFor
  refine congrArg _ (flatMap_congrFun _ (fun e => ?_))
  apply filter_map_invariant
  · intro f
    by_cases hf : f.field_id == fid <;> simp [hf]
  · intro f
    by_cases hf : f.field_id == fid <;> simp [hf]

/-- Soft-deleting a field does not change `get_past_reflections` at all:
the reflection list reads fields only through the name/type join above. -/
theorem get_past_reflections_softdelete (db : DB) (fid : Nat) (now : Timestamp)
    (skill_id : Option Nat) (lim : Nat) :
    get_past_reflections ((delete_form_field db fid now).2) skill_id lim
      = get_past_reflections db skill_id lim := by
  have hgen : genericItems ((delete_form_field db fid now).2) lim = genericItems db lim := rfl
  have hrows : ∀ s, skillRows ((delete_form_field db fid now).2) s = skillRows db s :=
    fun _ => rfl
  have hitems : ∀ s, skillItems ((delete_form_field db fid now).2) s lim
      = skillItems db s lim := by
    intro s
    unfold skillItems
    rw [hrows s]
    have hfn : (fun (p : Reflection × String) =>
          ReflectionItem.skill p.1.reflection_id p.1.skill_id p.1.timestamp p.2
            (entriesFor ((delete_form_field db fid now).2) p.1.reflection_id))
        = (fun (p : Reflection × String) =>
          ReflectionItem.skill p.1.reflection_id p.1.skill_id p.1.timestamp p.2
            (entriesFor db p.1.reflection_id)) :=
      funext (fun p => by rw [entriesFor_softdelete])
    rw [hfn]
  cases skill_id with
  | none =>
    simp only [get_past_reflections]
    rw [hgen, hitems none]
  | some sk =>
    simp only [get_past_reflections]
    rw [hitems (some sk)]

/-- C2.  After soft-deleting field `fid` (a field of skill `sk`): it is
gone from the active field list, still present in the all-fields list, and
every entry referencing it is still produced by the reflection listing —
whose output (field name, field type, value included) is completely
unchanged by the soft delete. -/
theorem softDeleteField_semantics (db : DB) (fid sk : Nat) (now : Timestamp) (f0 : FormField)
    (hf0 : f0 ∈ db.fields) (hid : f0.field_id = fid) (hsk : f0.skill_id = sk) :
    (∀ f ∈ get_form_fields ((delete_form_field db fid now).2) sk false, f.field_id ≠ fid) ∧
      (∃ f ∈ get_form_fields ((delete_form_field db fid now).2) sk true, f.field_id = fid) ∧
      (∀ e ∈ db.entries, e.field_id = fid →
        (⟨e.entry_id, e.field_id, f0.field_name, f0.field_type, e.value⟩ : EntryView)
          ∈ entriesFor ((delete_form_field db fid now).2) e.reflection_id) ∧
      (∀ skill_id lim, get_past_reflections ((delete_form_field db fid now).2) skill_id lim
        = get_past_reflections db skill_id lim) := by
  refine ⟨?_, ?_, ?_, fun skill_id lim => get_past_reflections_softdelete db fid now skill_id lim⟩
  · intro f hf hne
    have hf' := List.mem_filter.1 (mem_sortWith.1 hf)
    obtain ⟨hmem, hq⟩ := hf'
    obtain ⟨g, hgmem, hgu⟩ := List.mem_map.1
      (show f ∈ db.fields.map (fun f =>
        if f.field_id == fid then { f with deleted_timestamp := some now } else f) from hmem)
    by_cases hgf : g.field_id == fid
    · rw [if_pos hgf] at hgu
      rw [← hgu] at hq
      simp at hq
    · rw [if_neg hgf] at hgu
      rw [← hgu] at hne
      exact hgf (by simp [hne])
  · refine ⟨{ f0 with deleted_timestamp := some now }, ?_, hid⟩
    apply mem_sortWith.2
    refine List.mem_filter.2 ⟨?_, by simp [hsk]⟩
    have hrep : ({ f0 with deleted_timestamp := some now } : FormField)
        = (fun f => if f.field_id == fid
            then { f with deleted_timestamp := some now } else f) f0 := by
      simp [hid]
    rw [hrep]
    exact List.mem_map_of_mem _ hf0
  · intro e he hefid
    rw [entriesFor_softdelete]
    unfold entriesFor
    apply mem_sortWith.2
    apply List.mem_flatMap.2
    refine ⟨e, List.mem_filter.2 ⟨he, by simp⟩, ?_⟩
    exact List.mem_map_of_mem _ (List.mem_filter.2 ⟨hf0, by simp [hid, hefid]⟩)

/-- Witness for C2 on a concrete store: soft-delete field 1 of `dbC4`;
its entry is still listed with name, type and value, and the whole
reflection listing is unchanged. -/
theorem softDeleteField_semantics_witness :
    ((⟨1, 1, "Rating", "rating1-5", "4"⟩ : EntryView)
        ∈ entriesFor ((delete_form_field dbC4 1 ⟨5, 0⟩).2) 1) ∧
      get_past_reflections ((delete_form_field dbC4 1 ⟨5, 0⟩).2) (some 1) 100
        = get_past_reflections dbC4 (some 1) 100 :=
  ⟨(softDeleteField_semantics dbC4 1 1 ⟨5, 0⟩ ⟨1, 1, "Rating", "rating1-5", none⟩
      (by decide) rfl rfl).2.2.1 ⟨1, 1, 1, "4"⟩ (by decide) rfl,
    (softDeleteField_semantics dbC4 1 1 ⟨5, 0⟩ ⟨1, 1, "Rating", "rating1-5", none⟩
      (by decide) rfl rfl).2.2.2 (some 1) 100⟩

/-- A filter whose predicate pins a duplicate-free key to one value keeps
at most one element — uniqueness of primary-key lookups. -/
theorem filter_len_le_one {α} (key : α → Nat) (l : List α) (hn : (l.map key).Nodup) (k : Nat)
    (p : α → Bool) (hp : ∀ a, p a = true → key a = k) :
    (l.filter p).length ≤ 1 := by
  induction l with
  | nil => simp
  | cons a l ih =>
    simp only [List.map_cons, List.nodup_cons] at hn
    obtain ⟨hna, hnl⟩ := hn
    rw [List.filter_cons]
    cases h : p a with
    | false => simpa using ih hnl
    | true =>
      have hnil : l.filter p = [] := by
        rw [List.filter_eq_nil_iff]
        intro b hb hpb
        exact hna ((hp a h).trans (hp b hpb).symm ▸ List.mem_map_of_mem key hb)
      simp [hnil]

/-- A `flatMap` whose blocks are empty or one projected element is the
projection of a filter. -/
theorem flatMap_eq_filter_map {α β} (l : List α) (g : α → List β) (p : α → Bool) (v : α → β)
    (h : ∀ a, g a = if p a then [v a] else []) :
    l.flatMap g = (l.filter p).map v := by
  induction l with
  | nil => rfl
  | cons a l ih =>
    rw [List.flatMap_cons, h a, List.filter_cons, ih]
    cases hpa : p a <;> simp

/-- A list of length at most one is empty or a singleton. -/
theorem short_list_cases {α} (l : List α) (h : l.length ≤ 1) : l = [] ∨ ∃ x, l = [x] := by
  cases l with
  | nil => exact Or.inl rfl
  | cons a t =>
    cases t with
    | nil => exact Or.inr ⟨a, rfl⟩
    | cons b t2 => simp at h

/-- One block of the rating join: under duplicate-free `field_id` and
`reflection_id` keys it contributes the entry's value once when the entry
matches the spec-side predicates, nothing otherwise. -/
theorem ratingJoin_inner (db : DB) (skill_id : Option Nat) (e : ReflectionEntry)
    (hf : (db.fields.map (·.field_id)).Nodup)
    (hr : (db.reflections.map (·.reflection_id)).Nodup) :
    ((db.fields.filter (fun f =>
        f.field_id == e.field_id && f.field_name == "Rating"
          && f.field_type == "rating1-5" && f.deleted_timestamp.isNone)).flatMap (fun _f =>
      (db.reflections.filter (fun r =>
          r.reflection_id == e.reflection_id
            && (match skill_id with | none => true | some sk => r.skill_id == sk))).map
        (fun _r => e.value)))
      = if isActiveRatingField db e.field_id && entryInScope db skill_id e.reflection_id
          then [e.value] else [] := by
  have hFlen : (db.fields.filter (fun f =>
      f.field_id == e.field_id && f.field_name == "Rating"
        && f.field_type == "rating1-5" && f.deleted_timestamp.isNone)).length ≤ 1 :=
    filter_len_le_one (·.field_id) db.fields hf e.field_id _
      (fun a ha => by
        simp only [Bool.and_eq_true, beq_iff_eq] at ha
        exact ha.1.1.1)
  have hRlen : (db.reflections.filter (fun r =>
      r.reflection_id == e.reflection_id
        && (match skill_id with | none => true | some sk => r.skill_id == sk))).length ≤ 1 :=
    filter_len_le_one (·.reflection_id) db.reflections hr e.reflection_id _
      (fun a ha => by
        simp only [Bool.and_eq_true, beq_iff_eq] at ha
        exact ha.1)
  rcases short_list_cases _ hFlen with hF | ⟨f, hF⟩
  · have hact : isActiveRatingField db e.field_id = false := by
      unfold isActiveRatingField
      rw [List.any_eq_false]
      exact fun g hgm => List.filter_eq_nil_iff.1 hF g hgm
    rw [hF]
    simp [hact]
  · have hfmem := List.mem_filter.1 (hF ▸ List.mem_cons_self f [])
    have hact : isActiveRatingField db e.field_id = true := by
      unfold isActiveRatingField
      rw [List.any_eq_true]
      exact ⟨f, hfmem.1, hfmem.2⟩
    rw [hF]
    simp only [List.flatMap_cons, List.flatMap_nil, List.append_nil]
    rcases short_list_cases _ hRlen with hR | ⟨r, hR⟩
    · have hscope : entryInScope db skill_id e.reflection_id = false := by
        unfold entryInScope
        rw [List.any_eq_false]
        exact fun s hsm => List.filter_eq_nil_iff.1 hR s hsm
      rw [hR]
      simp [hact, hscope]
    · have hrmem := List.mem_filter.1 (hR ▸ List.mem_cons_self r [])
      have hscope : entryInScope db skill_id e.reflection_id = true := by
        unfold entryInScope
        rw [List.any_eq_true]
        exact ⟨r, hrmem.1, hrmem.2⟩
      rw [hR]
      simp [hact, hscope]

/-- The SQL rating join produces exactly the spec-described values, in
entry-table order, whenever the primary keys are duplicate-free. -/
theorem ratingJoin_eq_spec (db : DB) (skill_id : Option Nat)
    (hf : (db.fields.map (·.field_id)).Nodup)
    (hr : (db.reflections.map (·.reflection_id)).Nodup) :
    ratingJoinValues db skill_id = specRatingValues db skill_id := by
  unfold ratingJoinValues specRatingValues
  exact flatMap_eq_filter_map db.entries _ _ _
    (fun e => ratingJoin_inner db skill_id e hf hr)

/-- Skill 1 ("Guitar Practice") with fields `{Minutes: number, Rating:
rating1-5}` and one reflection `{Minutes: "30", Rating: "4"}`. -/
def dbC8 : DB :=
  ⟨[⟨1, "Guitar Practice", "", ""⟩],
    [⟨1, 1, "Minutes", "number", none⟩, ⟨2, 1, "Rating", "rating1-5", none⟩],
    [⟨1, 1, t0⟩],
    [⟨1, 1, 1, "30"⟩, ⟨2, 1, 2, "4"⟩],
    [], 3, 2, 3, 1⟩

/-- C8.  With duplicate-free primary keys, the dashboard average-rating
aggregate ranges over exactly the spec-described entry values (owning
field named `"Rating"`, of type `rating1-5`, currently active, scoped to
the skill when one is given); it is `none` exactly when no entry matches,
is the `castReal`-mean otherwise, and a single matching `"4"` yields the
displayed string `"4.00"`. -/
theorem averageRating_spec (db : DB) (skill_id : Option Nat)
    (hf : (db.fields.map (·.field_id)).Nodup)
    (hr : (db.reflections.map (·.reflection_id)).Nodup) :
    ratingJoinValues db skill_id = specRatingValues db skill_id ∧
      (avg_rating db skill_id = none ↔ specRatingValues db skill_id = []) ∧
      (specRatingValues db skill_id ≠ [] →
        avg_rating db skill_id
          = some (((specRatingValues db skill_id).map castReal).sum
              / ((specRatingValues db skill_id).length : Rat))) ∧
      (specRatingValues db skill_id = ["4"] → skill_aggregate db skill_id = some "4.00") := by
  have hjs := ratingJoin_eq_spec db skill_id hf hr
  refine ⟨hjs, ?_, ?_, ?_⟩
  · unfold avg_rating
    rw [hjs]
    by_cases h : specRatingValues db skill_id = [] <;> simp [h, List.isEmpty_iff]
  · intro hne
    simp [avg_rating, hjs, List.isEmpty_iff, hne]
  · intro h4
    have havg : avg_rating db skill_id = some (castReal "4" / 1) := by
      simp [avg_rating, hjs, h4]
    have hc : castReal "4" = 4 := by
      have h : scanReal "4" = some ⟨1, 4, 0, 0, 0⟩ := by decide
      simp [castReal, parseReal, h, NumScan.toRat]
    have hval : castReal "4" / 1 = (4 : Rat) := by rw [hc]; norm_num
    have hfmt : format2 4 = "4.00" := by
      have h : ((4 : Rat)) * 100 = ((400 : Int) : Rat) := by norm_num
      unfold format2
      rw [h, round_intCast]
      decide
    unfold skill_aggregate
    rw [havg, hval]
    simp [hfmt]

/-- Witness for C8: on `dbC8` (one matching entry with value `"4"`,
scoped to skill 1) the displayed aggregate is `"4.00"`. -/
theorem averageRating_spec_witness : skill_aggregate dbC8 (some 1) = some "4.00" :=
  (averageRating_spec dbC8 (some 1) (by decide) (by decide)).2.2.2 (by decide)

theorem bumpAt_getElem? (acc : List (Int × Nat)) (i j : Nat) :
    (bumpAt acc i)[j]? = if i = j then (acc[j]?).map (fun p => (p.1, p.2 + 1)) else acc[j]? := by
  induction acc generalizing i j with
  | nil => simp [bumpAt]
  | cons p ps ih =>
    cases i with
    | zero =>
      cases j with
      | zero => simp [bumpAt]
      | succ j => simp [bumpAt]
    | succ i =>
      cases j with
      | zero => simp [bumpAt]
      | succ j =>
        simp only [bumpAt, List.getElem?_cons_succ, ih i j, Nat.succ.injEq]

theorem bumpAt_map_fst (acc : List (Int × Nat)) (i : Nat) :
    (bumpAt acc i).map Prod.fst = acc.map Prod.fst := by
  induction acc generalizing i with
  | nil => rfl
  | cons p ps ih =>
    cases i with
    | zero => simp [bumpAt]
    | succ i => simp [bumpAt, ih i]

theorem bumpAt_sum_le (acc : List (Int × Nat)) (i : Nat) :
    ((bumpAt acc i).map Prod.snd).sum ≤ ((acc.map Prod.snd).sum) + 1 := by
  induction acc generalizing i with
  | nil => simp [bumpAt]
  | cons p ps ih =>
    cases i with
    | zero =>
      simp only [bumpAt, List.map_cons, List.sum_cons]
      omega
    | succ i =>
      simp only [bumpAt, List.map_cons, List.sum_cons]
      have := ih i
      omega

/-- The bucketing fold, indexwise: bucket `j` gains one count per fetched
timestamp whose first matching week is `j`. -/
theorem weekFold_getElem? (starts : List Int) (tss : List Timestamp)
    (acc : List (Int × Nat)) (j : Nat) :
    (tss.foldl (fun acc ts =>
        match firstWeekIdx starts ts.day with
        | some i => bumpAt acc i
        | none => acc) acc)[j]?
      = (acc[j]?).map (fun p =>
          (p.1, p.2 + (tss.filter (fun ts => firstWeekIdx starts ts.day == some j)).length)) := by
  induction tss generalizing acc with
  | nil => cases h : acc[j]? <;> simp [h]
  | cons ts rest ih =>
    rw [List.foldl_cons, List.filter_cons, ih]
    cases hfw : firstWeekIdx starts ts.day with
    | none => simp [hfw]
    | some i =>
      by_cases hij : i = j
      · subst hij
        simp only [hfw, bumpAt_getElem?, if_pos rfl]
        cases h : acc[i]? with
        | none => simp [h]
        | some p =>
          simp [h]
          omega
      · simp [hfw, bumpAt_getElem?, hij]

/-- The bucketing fold never changes the labels (the bucket keys). -/
theorem weekFold_map_fst (starts : List Int) (tss : List Timestamp)
    (acc : List (Int × Nat)) :
    (tss.foldl (fun acc ts =>
        match firstWeekIdx starts ts.day with
        | some i => bumpAt acc i
        | none => acc) acc).map Prod.fst = acc.map Prod.fst := by
  induction tss generalizing acc with
  | nil => rfl
  | cons ts rest ih =>
    rw [List.foldl_cons, ih]
    cases hfw : firstWeekIdx starts ts.day with
    | none => simp [hfw]
    | some i => simp [hfw, bumpAt_map_fst]

/-- Each fetched timestamp raises the total bucket count by at most one. -/
theorem weekFold_sum_le (starts : List Int) (tss : List Timestamp)
    (acc : List (Int × Nat)) :
    ((tss.foldl (fun acc ts =>
        match firstWeekIdx starts ts.day with
        | some i => bumpAt acc i
        | none => acc) acc).map Prod.snd).sum
      ≤ ((acc.map Prod.snd).sum) + tss.length := by
  induction tss generalizing acc with
  | nil => simp
  | cons ts rest ih =>
    rw [List.foldl_cons]
    cases hfw : firstWeekIdx starts ts.day with
    | none =>
      simp only [hfw, List.length_cons]
      have := ih acc
      omega
    | some i =>
      simp only [hfw, List.length_cons]
      have h1 := ih (bumpAt acc i)
      have h2 := bumpAt_sum_le acc i
      omega

/-- The five week starts, written out: the most recent Monday and the four
Mondays before it. -/
theorem weekStartDates_explicit (today : Int) :
    weekStartDates today = [dashStart today, dashStart today + 7, dashStart today + 14,
      dashStart today + 21, dashStart today + 28] := by
  have h5 : List.range 5 = [0, 1, 2, 3, 4] := rfl
  rw [weekStartDates, h5]
  norm_num

/-- Membership in the week-start list. -/
theorem mem_weekStartDates {today ws : Int} :
    ws ∈ weekStartDates today ↔ ∃ i : Nat, i < 5 ∧ ws = dashStart today + 7 * i := by
  rw [weekStartDates_explicit]
  constructor
  · intro h
    simp only [List.mem_cons, List.not_mem_nil, or_false] at h
    rcases h with h | h | h | h | h
    · exact ⟨0, by norm_num, by omega⟩
    · exact ⟨1, by norm_num, by omega⟩
    · exact ⟨2, by norm_num, by omega⟩
    · exact ⟨3, by norm_num, by omega⟩
    · exact ⟨4, by norm_num, by omega⟩
  · rintro ⟨i, hi, hw⟩
    interval_cases i <;> norm_num at hw <;> simp [hw]

/-- Indexing the week-start list. -/
theorem weekStartDates_getElem? (today : Int) (j : Nat) :
    (weekStartDates today)[j]?
      = if j < 5 then some (dashStart today + 7 * j) else none := by
  rw [weekStartDates_explicit]
  match j with
  | 0 => norm_num
  | 1 => norm_num
  | 2 => norm_num
  | 3 => norm_num
  | 4 => norm_num
  | n + 5 => simp

/-- The first-match search over five consecutive week-long windows finds
index `j` exactly when the date lies in window `j` — consecutive windows
are disjoint, so the first match is the only one. -/
theorem firstWeekIdx_prog (s d : Int) (j : Nat) :
    firstWeekIdx [s, s + 7, s + 14, s + 21, s + 28] d = some j
      ↔ (j < 5 ∧ s + 7 * j ≤ d ∧ d < s + 7 * j + 7) := by
  constructor
  · intro h
    simp only [firstWeekIdx] at h
    split_ifs at h with h1 h2 h3 h4 h5 <;> simp at h <;> omega
  · rintro ⟨hj, h1, h2⟩
    interval_cases j <;>
      simp only [firstWeekIdx] <;>
      split_ifs <;>
      simp <;>
      omega

/-- Reflections on days 100, 96 and 50 plus one generic on day 99; with
`today = 100` the dashboard window starts on day 70. -/
def dbC9 : DB :=
  ⟨[⟨1, "Guitar Practice", "", ""⟩], [],
    [⟨1, 1, ⟨100, 0⟩⟩, ⟨2, 1, ⟨96, 3⟩⟩, ⟨3, 1, ⟨50, 0⟩⟩],
    [], [⟨1, ⟨99, 5⟩, "note"⟩], 1, 4, 1, 2⟩

/-- C9.  `weekly_counts` is an ordered mapping whose keys are exactly the
5 week starts — Monday-aligned, the most recent Monday and the four
before it, with `today` inside the last week; every date of the 35-day
window lies in exactly one week interval; each bucket's count is the
number of fetched reflection timestamps in its own interval (so a
window reflection is counted in exactly one bucket); and the bucket total
is at most `overall_count`, the unfiltered reflection total. -/
theorem weeklyCounts_spec (db : DB) (skill_id : Option Nat) (today : Int) :
    (weekly_counts db skill_id today).map Prod.fst = weekStartDates today ∧
      weekStartDates today = [mostRecentMonday today - 28, mostRecentMonday today - 21,
        mostRecentMonday today - 14, mostRecentMonday today - 7, mostRecentMonday today] ∧
      (weekly_counts db skill_id today).length = 5 ∧
      (∀ ws ∈ weekStartDates today, ws % 7 = 0) ∧
      (mostRecentMonday today ≤ today ∧ today < mostRecentMonday today + 7) ∧
      (∀ d : Int, dashStart today ≤ d → d < dashStart today + 35 →
        ∃! ws, ws ∈ weekStartDates today ∧ ws ≤ d ∧ d < ws + 7) ∧
      (∀ ws cnt, (ws, cnt) ∈ weekly_counts db skill_id today →
        cnt = ((dashboardTimestamps db skill_id today).filter
            (fun ts => decide (ws ≤ ts.day ∧ ts.day < ws + 7))).length) ∧
      ((weekly_counts db skill_id today).map Prod.snd).sum ≤ overall_count db ∧
      overall_count db = db.reflections.length + db.generics.length := by
  have hwc : weekly_counts db skill_id today
      = (dashboardTimestamps db skill_id today).foldl (fun acc ts =>
          match firstWeekIdx (weekStartDates today) ts.day with
          | some i => bumpAt acc i
          | none => acc) ((weekStartDates today).map (fun ws => (ws, 0))) := rfl
  have hfst : (weekly_counts db skill_id today).map Prod.fst = weekStartDates today := by
    rw [hwc, weekFold_map_fst, List.map_map]
    have hcomp : (Prod.fst ∘ fun ws : Int => (ws, (0 : Nat))) = id := rfl
    rw [hcomp, List.map_id]
  refine ⟨hfst, ?_, ?_, ?_, ?_, ?_, ?_, ?_, rfl⟩
  · rw [weekStartDates_explicit]
    simp only [dashStart, mostRecentMonday, List.cons.injEq, and_true]
    norm_num
    omega
  · have := congrArg List.length hfst
    simpa [weekStartDates] using this
  · intro ws hws
    obtain ⟨i, hi, hwseq⟩ := mem_weekStartDates.1 hws
    subst hwseq
    simp only [dashStart]
    omega
  · simp only [mostRecentMonday]
    omega
  · intro d h1 h2
    refine ⟨dashStart today + 7 * ((d - dashStart today) / 7).toNat, ⟨?_, ?_, ?_⟩, ?_⟩
    · exact mem_weekStartDates.2 ⟨((d - dashStart today) / 7).toNat, by omega, rfl⟩
    · omega
    · omega
    · rintro ws' ⟨hmem, hle, hlt⟩
      obtain ⟨i, hi5, hweq⟩ := mem_weekStartDates.1 hmem
      subst hweq
      have : (i : Int) = ((d - dashStart today) / 7).toNat := by omega
      omega
  · intro ws cnt hmem
    obtain ⟨j, hj⟩ := List.mem_iff_getElem?.1 hmem
    rw [hwc, weekFold_getElem?, List.getElem?_map, weekStartDates_getElem?] at hj
    by_cases hj5 : j < 5
    · rw [if_pos hj5] at hj
      simp only [Option.map_some', Option.some.injEq, Prod.mk.injEq] at hj
      obtain ⟨hws, hcnt⟩ := hj
      subst hws
      rw [← hcnt]
      simp only [Nat.zero_add]
      apply congrArg List.length
      apply List.filter_congr
      intro ts _
      by_cases hint : dashStart today + 7 * (j : Int) ≤ ts.day
          ∧ ts.day < dashStart today + 7 * (j : Int) + 7
      · have hidx : firstWeekIdx (weekStartDates today) ts.day = some j := by
          rw [weekStartDates_explicit]
          exact (firstWeekIdx_prog (dashStart today) ts.day j).2 ⟨hj5, hint.1, by omega⟩
        rw [hidx, decide_eq_true hint]
        simp
      · have hidx : firstWeekIdx (weekStartDates today) ts.day ≠ some j := by
          rw [weekStartDates_explicit]
          intro hcon
          have hb := (firstWeekIdx_prog (dashStart today) ts.day j).1 hcon
          exact hint ⟨hb.2.1, by omega⟩
        rw [decide_eq_false hint]
        exact beq_eq_false_iff_ne.2 hidx
    · rw [if_neg hj5] at hj
      simp at hj
  · have h0 : (((weekStartDates today).map (fun ws => (ws, (0 : Nat)))).map Prod.snd).sum
        = 0 := by
      rw [List.map_map]
      apply List.sum_eq_zero
      intro x hx
      simp only [List.mem_map, Function.comp] at hx
      obtain ⟨a, _, ha⟩ := hx
      exact ha.symm
    have hb := weekFold_sum_le (weekStartDates today) (dashboardTimestamps db skill_id today)
      ((weekStartDates today).map (fun ws => (ws, 0)))
    have hlen : (dashboardTimestamps db skill_id today).length ≤ overall_count db := by
      unfold dashboardTimestamps overall_count
      cases skill_id with
      | none =>
        simp only [List.length_append, List.length_map]
        have hx := List.length_filter_le (fun (r : Reflection) =>
          true && decide (dashStart today ≤ r.timestamp.day)) db.reflections
        have hy := List.length_filter_le (fun (g : GenericReflection) =>
          decide (dashStart today ≤ g.timestamp.day)) db.generics
        omega
      | some sk =>
        simp only [List.length_append, List.length_map, List.length_nil]
        have hx := List.length_filter_le (fun (r : Reflection) =>
          (r.skill_id == sk) && decide (dashStart today ≤ r.timestamp.day)) db.reflections
        omega
    rw [hwc]
    calc ((_ : List (Int × Nat)).map Prod.snd).sum
        ≤ _ + (dashboardTimestamps db skill_id today).length := hb
      _ ≤ overall_count db := by rw [h0]; omega

/-- Witness for C9 at `dbC9` with `today = 100`: the bucket total is
bounded by the overall count, and day 99 (inside the window starting at
day 70) belongs to exactly one week. -/
theorem weeklyCounts_spec_witness :
    ((weekly_counts dbC9 none 100).map Prod.snd).sum ≤ overall_count dbC9 ∧
      (∃! ws, ws ∈ weekStartDates 100 ∧ ws ≤ 99 ∧ (99 : Int) < ws + 7) :=
  ⟨(weeklyCounts_spec dbC9 none 100).2.2.2.2.2.2.2.1,
    (weeklyCounts_spec dbC9 none 100).2.2.2.2.2.1 99 (by decide) (by decide)⟩

/-- Mapping commutes with a filter its map preserves. -/
theorem map_filter_comm {α} (u : α → α) (p : α → Bool) (l : List α)
    (hp : ∀ a, p (u a) = p a) : (l.map u).filter p = (l.filter p).map u := by
  rw [List.filter_map]
  congr 1
  apply List.filter_congr
  intro a _
  exact hp a

/-- Rewriting one entry's value (keyed by its duplicate-free id) moves the
cast-sum by exactly that entry's contribution. -/
theorem sum_castReal_update (l : List ReflectionEntry) (e0 : ReflectionEntry) (v : String)
    (hnd : (l.map (·.entry_id)).Nodup) (he : e0 ∈ l) :
    (l.map (fun e => castReal
        (if e.entry_id == e0.entry_id then { e with value := v } else e).value)).sum
      = (l.map (fun e => castReal e.value)).sum - castReal e0.value + castReal v := by
  induction l with
  | nil => exact absurd he (List.not_mem_nil e0)
  | cons a l ih =>
    simp only [List.map_cons, List.nodup_cons] at hnd
    obtain ⟨hna, hnl⟩ := hnd
    rcases List.mem_cons.1 he with rfl | he'
    · simp only [List.map_cons, List.sum_cons]
      rw [if_pos (beq_self_eq_true e0.entry_id)]
      have hrest : l.map (fun e => castReal
          (if e.entry_id == e0.entry_id then { e with value := v } else e).value)
          = l.map (fun e => castReal e.value) := by
        apply List.map_congr_left
        intro e hel
        have hne2 : e.entry_id ≠ e0.entry_id :=
          fun hcon => hna (hcon ▸ List.mem_map_of_mem (·.entry_id) hel)
        rw [if_neg (by simpa using hne2)]
      rw [hrest]
      ring
    · have hne : a.entry_id ≠ e0.entry_id :=
        fun hcon => hna (hcon ▸ List.mem_map_of_mem (·.entry_id) he')
      simp only [List.map_cons, List.sum_cons]
      rw [if_neg (by simpa using hne), ih hnl he']
      ring

/-- Skill 1 with an active `Rating` field and two reflections whose
entries both carry `"4"`. -/
def dbC10 : DB :=
  ⟨[⟨1, "Guitar Practice", "", ""⟩], [⟨1, 1, "Rating", "rating1-5", none⟩],
    [⟨1, 1, t0⟩, ⟨2, 1, ⟨1, 0⟩⟩],
    [⟨1, 1, 1, "4"⟩, ⟨2, 2, 1, "4"⟩],
    [], 2, 3, 3, 1⟩

/-- C10.  `update_skill_reflection_entry` overwrites a value with no
re-validation, and `CAST(... AS REAL)` maps text without a numeric prefix
to `0`.  Hence editing a matching entry of an active `"Rating"`/
`rating1-5` field to non-numeric text leaves it inside the aggregate (the
matching-entry count is unchanged, not reduced) and the new mean counts it
as `0` in place of its old value. -/
theorem updateEntry_castZero (db : DB) (skill_id : Option Nat) (e0 : ReflectionEntry)
    (v : String)
    (he : e0 ∈ db.entries)
    (hnd : (db.entries.map (·.entry_id)).Nodup)
    (hf : (db.fields.map (·.field_id)).Nodup)
    (hr : (db.reflections.map (·.reflection_id)).Nodup)
    (hact : isActiveRatingField db e0.field_id = true)
    (hscope : entryInScope db skill_id e0.reflection_id = true)
    (hv : scanReal v = none) :
    castReal v = 0 ∧
      (specRatingValues ((update_skill_reflection_entry db e0.entry_id v).2) skill_id).length
        = (specRatingValues db skill_id).length ∧
      avg_rating ((update_skill_reflection_entry db e0.entry_id v).2) skill_id
        = some ((((specRatingValues db skill_id).map castReal).sum - castReal e0.value)
            / ((specRatingValues db skill_id).length : Rat)) := by
  have hc0 : castReal v = 0 := by simp [castReal, parseReal, hv]
  have hp : ∀ e : ReflectionEntry,
      (isActiveRatingField db
          (if e.entry_id == e0.entry_id then { e with value := v } else e).field_id
        && entryInScope db skill_id
          (if e.entry_id == e0.entry_id then { e with value := v } else e).reflection_id)
      = (isActiveRatingField db e.field_id && entryInScope db skill_id e.reflection_id) := by
    intro e
    by_cases hc : e.entry_id == e0.entry_id <;> simp [hc]
  have hspec : specRatingValues ((update_skill_reflection_entry db e0.entry_id v).2) skill_id
      = ((db.entries.filter (fun e =>
            isActiveRatingField db e.field_id && entryInScope db skill_id e.reflection_id)).map
          (fun e => if e.entry_id == e0.entry_id then { e with value := v } else e)).map
        (·.value) := by
    show ((db.entries.map (fun e =>
        if e.entry_id == e0.entry_id then { e with value := v } else e)).filter (fun e =>
          isActiveRatingField db e.field_id
            && entryInScope db skill_id e.reflection_id)).map (·.value) = _
    rw [map_filter_comm _ _ _ hp]
  have hfilnd : ((db.entries.filter (fun e =>
        isActiveRatingField db e.field_id && entryInScope db skill_id e.reflection_id)).map
      (·.entry_id)).Nodup := by
    apply List.Nodup.sublist _ hnd
    exact List.Sublist.map _ (List.filter_sublist _)
  have hpe0 : (isActiveRatingField db e0.field_id
      && entryInScope db skill_id e0.reflection_id) = true := by
    simp [hact, hscope]
  have hmem0 : e0 ∈ db.entries.filter (fun e =>
      isActiveRatingField db e.field_id && entryInScope db skill_id e.reflection_id) :=
    List.mem_filter.2 ⟨he, hpe0⟩
  have hsum : ((specRatingValues ((update_skill_reflection_entry db e0.entry_id v).2)
        skill_id).map castReal).sum
      = ((specRatingValues db skill_id).map castReal).sum - castReal e0.value := by
    rw [hspec, List.map_map, List.map_map]
    show ((db.entries.filter (fun e =>
        isActiveRatingField db e.field_id && entryInScope db skill_id e.reflection_id)).map
      (fun e => castReal
        (if e.entry_id == e0.entry_id then { e with value := v } else e).value)).sum = _
    rw [sum_castReal_update _ e0 v hfilnd hmem0, hc0]
    unfold specRatingValues
    rw [List.map_map]
    show _ = ((db.entries.filter (fun e =>
        isActiveRatingField db e.field_id && entryInScope db skill_id e.reflection_id)).map
      (fun e => castReal e.value)).sum - castReal e0.value
    ring
  have hlen : (specRatingValues ((update_skill_reflection_entry db e0.entry_id v).2)
        skill_id).length = (specRatingValues db skill_id).length := by
    rw [hspec]
    unfold specRatingValues
    simp
  have hne : specRatingValues ((update_skill_reflection_entry db e0.entry_id v).2)
      skill_id ≠ [] := by
    rw [hspec]
    intro hcon
    rw [List.map_eq_nil_iff, List.map_eq_nil_iff] at hcon
    rw [hcon] at hmem0
    exact List.not_mem_nil e0 hmem0
  refine ⟨hc0, hlen, ?_⟩
  have hjs := ratingJoin_eq_spec ((update_skill_reflection_entry db e0.entry_id v).2)
    skill_id hf hr
  unfold avg_rating
  rw [hjs]
  rw [if_neg (fun hcon => hne (List.isEmpty_iff.1 hcon))]
  rw [hsum, hlen]

/-- Witness for C10: editing entry 2 of `dbC10` (a matching `"Rating"`
entry valued `"4"`) to `"abc"` keeps it counted and moves the aggregate
mean to `(8 - 4) / 2`, i.e. it now contributes `0`. -/
theorem updateEntry_castZero_witness :
    castReal "abc" = 0 ∧
      (specRatingValues ((update_skill_reflection_entry dbC10 2 "abc").2) none).length
        = (specRatingValues dbC10 none).length ∧
      avg_rating ((update_skill_reflection_entry dbC10 2 "abc").2) none
        = some ((((specRatingValues dbC10 none).map castReal).sum - castReal "4")
            / ((specRatingValues dbC10 none).length : Rat)) :=
  updateEntry_castZero dbC10 none ⟨2, 2, 1, "4"⟩ "abc" (by decide) (by decide) (by decide)
    (by decide) (by decide) (by decide) (by decide)
